import Mathlib

/-!
Verification of the miniphys cloth particle–constraint simulation engine
(`src/cloth.rs`) against its specification.

Modelling conventions:
* `f64` values are embedded as exact rationals `ℚ`.  The floating-point
  square root has no exact rational counterpart, so every definition that
  needs it takes an explicit function parameter `S : ℚ → ℚ` standing for
  the map `q ↦ f64::sqrt(q)` applied to the squared magnitude; theorems
  that depend on properties of the square root state them as hypotheses
  on `S`.  The `f64::consts::SQRT_2` constant is likewise a parameter.
* `usize` additions and multiplications are embedded as `Nat` (no mesh
  that fits in memory can overflow them).  `usize` subtraction can and
  does underflow at small grid sizes, so it is embedded exactly as the
  release-mode wrapping subtraction `usub` below (debug builds panic at
  the same spot instead).
* Rust indexing `v[i]` (which panics when out of range) is embedded with
  `List.getD` / `List.set`; operations whose Rust code can actually panic
  on a reachable input (`cut_at_mouse` on an empty mesh,
  `move_selected_particles` on mismatched selection state) return
  `Option`, with `none` marking the panic.
* One family of definitions, clearly marked `Modelled from the spec`, is
  translated from the specification text instead of the source: the
  constraint-relaxation step that §4.2 of the spec prescribes.  It exists
  only to be compared with the source's `simulate` (claim C1).
-/

namespace MiniPhys

/-- Wrapping (release-mode) `usize` subtraction, for subtrahends up to `2^64`. -/
def usub (a b : Nat) : Nat := (a + 2 ^ 64 - b) % 2 ^ 64

/-- 2D vector, from `struct Vec2 { x: f64, y: f64 }`. -/
structure Vec2 where
  x : ℚ
  y : ℚ
deriving DecidableEq

/-- `Vec2::zero`. -/
def Vec2.zero : Vec2 := ⟨0, 0⟩

/-- `Vec2::length`: `(x*x + y*y).sqrt()`, with the square-root map `S` explicit. -/
def Vec2.length (S : ℚ → ℚ) (v : Vec2) : ℚ := S (v.x * v.x + v.y * v.y)

/-- `Vec2::sub`. -/
def Vec2.sub (v w : Vec2) : Vec2 := ⟨v.x - w.x, v.y - w.y⟩

/-- `Vec2::add`. -/
def Vec2.add (v w : Vec2) : Vec2 := ⟨v.x + w.x, v.y + w.y⟩

/-- `Vec2::mul` by a scalar. -/
def Vec2.mul (v : Vec2) (s : ℚ) : Vec2 := ⟨v.x * s, v.y * s⟩

/-- `Vec2::div` by a scalar. -/
def Vec2.div (v : Vec2) (s : ℚ) : Vec2 := ⟨v.x / s, v.y / s⟩

/-- `Vec2::normalize`: zero length yields the zero vector, otherwise `mul (len.recip())`. -/
def Vec2.normalize (S : ℚ → ℚ) (v : Vec2) : Vec2 :=
  if v.length S = 0 then Vec2.zero else v.mul (v.length S)⁻¹

/-- Sum of a list of vectors (used only to state accumulated forces). -/
def Vec2.sum (l : List Vec2) : Vec2 := l.foldr Vec2.add Vec2.zero

/-- `struct Particle`. -/
structure Particle where
  position : Vec2
  previous_position : Vec2
  acceleration : Vec2
  mass : ℚ
  pinned : Bool
deriving DecidableEq

/-- `Particle::new`. -/
def Particle.new (position : Vec2) (pinned : Bool) : Particle :=
  ⟨position, position, Vec2.zero, 1, pinned⟩

/-- Default particle used with `List.getD`; Rust panics instead of producing it,
and no theorem below depends on its value at an out-of-range index. -/
def dp : Particle := Particle.new Vec2.zero false

/-- `Particle::apply_force`: `acceleration += force / mass`. -/
def Particle.apply_force (p : Particle) (force : Vec2) : Particle :=
  { p with acceleration := p.acceleration.add (force.div p.mass) }

/-- `Particle::update`: Verlet integration, skipped entirely when pinned. -/
def Particle.update (delta_time : ℚ) (p : Particle) : Particle :=
  if p.pinned then p
  else
    { p with
      position :=
        (p.position.add (p.position.sub p.previous_position)).add
          (p.acceleration.mul (delta_time * delta_time))
      previous_position := p.position }

/-- `Particle::set_position`: also resets `previous_position` and `acceleration`. -/
def Particle.set_position (p : Particle) (position : Vec2) : Particle :=
  { p with position := position, previous_position := position, acceleration := Vec2.zero }

/-- `Particle::velocity`: `(position - previous_position) / delta_time`. -/
def Particle.velocity (delta_time : ℚ) (p : Particle) : Vec2 :=
  (p.position.sub p.previous_position).div delta_time

/-- `DAMPING_CONSTANT`. -/
def DAMPING_CONSTANT : ℚ := 5

/-- `GRAVITY`. -/
def GRAVITY : ℚ := 987

/-- `SPRING_CONSTANT`. -/
def SPRING_CONSTANT : ℚ := 500

/-- `Particle::damping_force`: `velocity * (-DAMPING_CONSTANT)`. -/
def Particle.damping_force (delta_time : ℚ) (p : Particle) : Vec2 :=
  (p.velocity delta_time).mul (-DAMPING_CONSTANT)

/-- `fn gravity()`. -/
def gravity : Vec2 := ⟨0, GRAVITY⟩

/-- `fn hookes_law`. -/
def hookes_law (S : ℚ → ℚ) (p1 p2 : Vec2) (rest_length : ℚ) : Vec2 :=
  let displacement := p2.sub p1
  let displacement2 := (displacement.normalize S).mul (rest_length - displacement.length S)
  displacement2.mul (-SPRING_CONSTANT)

/-- `struct Constraint`. -/
structure Constraint where
  particle_a : Nat
  particle_b : Nat
  rest_length : ℚ
deriving DecidableEq

/-- `struct Cloth`. -/
structure Cloth where
  particles : List Particle
  constraints : List Constraint
  width : Nat
  height : Nat
  selected_particles : List Nat
  selection_offsets : List Vec2

/-- The per-cell constraints pushed by `Cloth::new` for grid cell `(x, y)`:
structural right/below, shear diagonals, bend skip-one right/below, in source
order.  The bounds guards embed the Rust `usize` subtractions with `usub`. -/
def cellConstraints (sqrt2 : ℚ) (width height : Nat) (spacing : ℚ) (x y : Nat) :
    List Constraint :=
  let index := y * width + x
  (if x < usub width 1 then [⟨index, index + 1, spacing⟩] else []) ++
  (if y < usub height 1 then [⟨index, index + width, spacing⟩] else []) ++
  (if x < usub width 1 ∧ y < usub height 1 then
    [⟨index, index + width + 1, spacing * sqrt2⟩] else []) ++
  (if 0 < x ∧ y < usub height 1 then
    [⟨index, index + width - 1, spacing * sqrt2⟩] else []) ++
  (if x < usub width 2 then [⟨index, index + 2, spacing * 2⟩] else []) ++
  (if y < usub height 2 then [⟨index, index + width * 2, spacing * 2⟩] else [])

/-- `Cloth::new`: the particle grid (row-major, outer loop `y`, top row pinned)
and the constraint list. -/
def Cloth.new (sqrt2 : ℚ) (width height : Nat) (spacing : ℚ) : Cloth :=
  { particles :=
      (List.range height).flatMap fun (y : Nat) =>
        (List.range width).map fun (x : Nat) =>
          Particle.new ⟨(x : ℚ) * spacing, (y : ℚ) * spacing⟩ (y == 0)
    constraints :=
      (List.range height).flatMap fun (y : Nat) =>
        (List.range width).flatMap fun (x : Nat) =>
          cellConstraints sqrt2 width height spacing x y
    width := width
    height := height
    selected_particles := []
    selection_offsets := [] }

/-- Body of the first loop of `Cloth::simulate` for one particle: gravity then
damping, unpinned particles only. -/
def externalStep (delta_time : ℚ) (p : Particle) : Particle :=
  if p.pinned then p
  else
    let p1 := p.apply_force gravity
    p1.apply_force (p1.damping_force delta_time)

/-- First loop of `Cloth::simulate`. -/
def applyExternalForces (delta_time : ℚ) (c : Cloth) : Cloth :=
  { c with particles := c.particles.map (externalStep delta_time) }

/-- `if !self.particles[i].pinned { self.particles[i].apply_force(f) }`. -/
def applyForceAt (ps : List Particle) (i : Nat) (f : Vec2) : List Particle :=
  let p := ps.getD i dp
  if p.pinned then ps else ps.set i (p.apply_force f)

/-- One step of the second loop of `Cloth::simulate`: the Hooke spring force of
one constraint, applied positively to endpoint `a` and negated to endpoint `b`,
skipping pinned endpoints. -/
def applyConstraintForce (S : ℚ → ℚ) (ps : List Particle) (con : Constraint) :
    List Particle :=
  let pa := ps.getD con.particle_a dp
  let pb := ps.getD con.particle_b dp
  let force := hookes_law S pa.position pb.position con.rest_length
  applyForceAt (applyForceAt ps con.particle_a force) con.particle_b (force.mul (-1))

/-- Second loop of `Cloth::simulate`: spring forces of every constraint in order. -/
def applySpringForces (S : ℚ → ℚ) (c : Cloth) : Cloth :=
  { c with particles := c.constraints.foldl (applyConstraintForce S) c.particles }

/-- The acceleration contribution one constraint makes to particle `j` in the
spring loop: the Hooke force over the particle's mass at endpoint `a`, its
negation at endpoint `b`, and nothing at pinned endpoints or other indices. -/
def springAccContrib (S : ℚ → ℚ) (ps : List Particle) (j : Nat) (con : Constraint) :
    Vec2 :=
  ((if con.particle_a = j ∧ (ps.getD con.particle_a dp).pinned = false then
      (hookes_law S (ps.getD con.particle_a dp).position (ps.getD con.particle_b dp).position
        con.rest_length).div (ps.getD j dp).mass
    else Vec2.zero).add
    (if con.particle_b = j ∧ (ps.getD con.particle_b dp).pinned = false then
      ((hookes_law S (ps.getD con.particle_a dp).position (ps.getD con.particle_b dp).position
        con.rest_length).mul (-1)).div (ps.getD j dp).mass
    else Vec2.zero))

/-- Third loop of `Cloth::simulate`: Verlet update of every particle. -/
def updateParticles (delta_time : ℚ) (c : Cloth) : Cloth :=
  { c with particles := c.particles.map (Particle.update delta_time) }

/-- Body of the fourth loop of `Cloth::simulate` for one particle. -/
def resetStep (p : Particle) : Particle := { p with acceleration := Vec2.zero }

/-- Fourth loop of `Cloth::simulate`: zero every acceleration accumulator. -/
def resetAccelerations (c : Cloth) : Cloth :=
  { c with particles := c.particles.map resetStep }

/-- `Cloth::simulate`: external forces, spring forces, Verlet update, reset —
the four loops of the source in order. -/
def Cloth.simulate (S : ℚ → ℚ) (c : Cloth) (delta_time : ℚ) : Cloth :=
  resetAccelerations (updateParticles delta_time (applySpringForces S (applyExternalForces delta_time c)))

/-- `Cloth::remove_constraint`: `swap_remove` semantics, no-op when out of range. -/
def Cloth.remove_constraint (c : Cloth) (index : Nat) : Cloth :=
  if index < c.constraints.length then
    { c with constraints :=
        ((c.constraints.set index (c.constraints.getLastD ⟨0, 0, 0⟩)).dropLast) }
  else c

/-- `Cloth::remove_constraints`: retain the constraints failing the condition. -/
def Cloth.remove_constraints (c : Cloth) (condition : Constraint → Bool) : Cloth :=
  { c with constraints := c.constraints.filter fun con => !condition con }

/-- `Cloth::cut_constraints_at_particle`: retain constraints touching neither endpoint. -/
def Cloth.cut_constraints_at_particle (c : Cloth) (particle_index : Nat) : Cloth :=
  { c with constraints :=
      c.constraints.filter fun con =>
        con.particle_a != particle_index && con.particle_b != particle_index }

/-- The fold inside `Iterator::min_by`: keep the accumulator unless the current
element is strictly smaller, so the first minimum wins. -/
def minByAux (best : Nat × ℚ) : List (Nat × ℚ) → Nat × ℚ
  | [] => best
  | p :: ps => minByAux (if p.2 < best.2 then p else best) ps

/-- `Iterator::min_by` over an enumerated distance list (`none` on empty input,
where the Rust code's `unwrap` panics). -/
def min_by_first : List (Nat × ℚ) → Option (Nat × ℚ)
  | [] => none
  | p :: ps => some (minByAux p ps)

/-- `CUT_THRESHOLD` (`let cut_threshold = 10.0`). -/
def CUT_THRESHOLD : ℚ := 10

/-- `Cloth::cut_at_mouse`: nearest particle by linear scan (first minimum), cut
its constraints when strictly inside the threshold.  `none` embeds the `unwrap`
panic on an empty mesh. -/
def Cloth.cut_at_mouse (S : ℚ → ℚ) (c : Cloth) (mouse_position : Vec2) : Option Cloth :=
  match min_by_first ((c.particles.map fun p => (p.position.sub mouse_position).length S).enum) with
  | none => none
  | some (nearest, distance) =>
      some (if distance < CUT_THRESHOLD then c.cut_constraints_at_particle nearest else c)

/-- The single pass of `Cloth::select_particles` starting at index `i`:
returns the selected indices, the recorded offsets, and the updated particles. -/
def selectAux (S : ℚ → ℚ) (mouse_pos : Vec2) (radius : ℚ) :
    Nat → List Particle → List Nat × List Vec2 × List Particle
  | _, [] => ([], [], [])
  | i, p :: ps =>
      let rest := selectAux S mouse_pos radius (i + 1) ps
      if (p.position.sub mouse_pos).length S ≤ radius then
        (i :: rest.1, (p.position.sub mouse_pos) :: rest.2.1,
          { p with pinned := true } :: rest.2.2)
      else (rest.1, rest.2.1, p :: rest.2.2)

/-- `Cloth::select_particles`: clears the previous selection, then records and
pins every particle within `radius` of the pointer. -/
def Cloth.select_particles (S : ℚ → ℚ) (c : Cloth) (mouse_pos : Vec2) (radius : ℚ) : Cloth :=
  let r := selectAux S mouse_pos radius 0 c.particles
  { c with particles := r.2.2, selected_particles := r.1, selection_offsets := r.2.1 }

/-- One iteration of the `move_selected_particles` loop:
`self.particles[particle_index].set_position(mouse_pos + offset)`. -/
def moveStep (mouse_pos : Vec2) (ps : List Particle) (iv : Nat × Vec2) : List Particle :=
  ps.set iv.1 ((ps.getD iv.1 dp).set_position (mouse_pos.add iv.2))

/-- `Cloth::move_selected_particles`: `set_position(mouse + offset)` for each
selected particle.  `none` embeds the panics of `selection_offsets[idx]` and
`self.particles[particle_index]` on inconsistent state. -/
def Cloth.move_selected_particles (c : Cloth) (mouse_pos : Vec2) : Option Cloth :=
  if c.selected_particles.length ≤ c.selection_offsets.length ∧
      ∀ i ∈ c.selected_particles, i < c.particles.length then
    some { c with particles :=
      (c.selected_particles.zip c.selection_offsets).foldl (moveStep mouse_pos) c.particles }
  else none

/-- One iteration of the `clear_selection` loop:
`self.particles[particle_index].pinned = false`. -/
def clearStep (ps : List Particle) (i : Nat) : List Particle :=
  ps.set i { (ps.getD i dp) with pinned := false }

/-- `Cloth::clear_selection`: unpin every selected particle, then clear both lists. -/
def Cloth.clear_selection (c : Cloth) : Cloth :=
  { c with
    particles := c.selected_particles.foldl clearStep c.particles
    selected_particles := []
    selection_offsets := [] }

/-! ### The specification's relaxation-based simulate (for claim C1)

Claim C1 asserts that `simulate` runs a constraint-relaxation phase after
the Verlet integration.  The definitions below are the one permitted
spec-side model for that refinement comparison. -/

/-- Modelled from the spec (§4.2 step 3): one relaxation pass of one
constraint — compute the vector between the two particles, compare its length
to `rest_length`, and redistribute half the discrepancy to each endpoint by
direct position correction, skipping correction of any pinned endpoint; a
zero-length vector normalizes to zero, giving a zero correction. -/
def relax_constraint (S : ℚ → ℚ) (ps : List Particle) (con : Constraint) :
    List Particle :=
  let pa := ps.getD con.particle_a dp
  let pb := ps.getD con.particle_b dp
  let delta := pb.position.sub pa.position
  let correction := (delta.normalize S).mul ((delta.length S - con.rest_length) / 2)
  let ps1 :=
    if pa.pinned then ps
    else ps.set con.particle_a { pa with position := pa.position.add correction }
  if pb.pinned then ps1
  else ps1.set con.particle_b
    { (ps1.getD con.particle_b dp) with
        position := (ps1.getD con.particle_b dp).position.sub correction }

/-- Modelled from the spec (§4.2 step 3): one relaxation iteration over every
constraint (Gauss–Seidel style, in constraint order). -/
def relax_all (S : ℚ → ℚ) (ps : List Particle) (cs : List Constraint) :
    List Particle :=
  cs.foldl (relax_constraint S) ps

/-- Modelled from the spec (§4.2 step 3): `iters` relaxation iterations. -/
def relax_iters (S : ℚ → ℚ) (cs : List Constraint) :
    Nat → List Particle → List Particle
  | 0, ps => ps
  | n + 1, ps => relax_iters S cs n (relax_all S ps cs)

/-- Modelled from the spec (§4.2): the simulate step claim C1 describes —
external forces (gravity and damping), Verlet integration, then a fixed
number `iters` of constraint-relaxation iterations after the integration,
and the accumulator reset. -/
def simulate_relaxation_spec (S : ℚ → ℚ) (iters : Nat) (c : Cloth)
    (delta_time : ℚ) : Cloth :=
  let c1 := updateParticles delta_time (applyExternalForces delta_time c)
  resetAccelerations { c1 with particles := relax_iters S c1.constraints iters c1.particles }

/-! ### An IEEE-faithful scalar for the degenerate time step (claim C3)

The exact-rational embedding above cannot express what `f64` does at
`delta_time = 0`: there `Particle::velocity` computes `0.0 / 0.0 = NaN`,
which no rational value represents.  `FS` embeds an `f64` as either a
finite rational or a non-finite value (NaN or an infinity, not
distinguished): every IEEE arithmetic operation with a non-finite operand
that occurs in this trace yields a non-finite result, and a zero divisor
yields a non-finite result (`0.0/0.0` is NaN, `x/0.0` is an infinity).
Rounding and overflow of finite values are ignored, as everywhere else in
this embedding. -/

/-- An `f64` value: a finite rational, or `none` for NaN/infinity. -/
def FS : Type := Option ℚ
deriving DecidableEq

/-- Finite `f64` literal. -/
def FS.fin (q : ℚ) : FS := some q

/-- The non-finite `f64` values (NaN and the infinities, not distinguished). -/
def FS.nonfinite : FS := none

/-- IEEE addition restricted to this model. -/
def FS.add : FS → FS → FS
  | some a, some b => some (a + b)
  | _, _ => none

/-- IEEE subtraction restricted to this model. -/
def FS.sub : FS → FS → FS
  | some a, some b => some (a - b)
  | _, _ => none

/-- IEEE multiplication restricted to this model (note `NaN * 0.0 = NaN`). -/
def FS.mul : FS → FS → FS
  | some a, some b => some (a * b)
  | _, _ => none

/-- IEEE division restricted to this model: a zero divisor gives a non-finite
result (`0.0/0.0 = NaN`, otherwise an infinity). -/
def FS.div : FS → FS → FS
  | some a, some b => if b = 0 then none else some (a / b)
  | _, _ => none

/-- `f64::recip`; `0.0.recip()` is an infinity. -/
def FS.recip : FS → FS
  | some a => if a = 0 then none else some a⁻¹
  | none => none

/-- IEEE `==` comparison with `0.0` (false for NaN). -/
def FS.eqZero : FS → Bool
  | some a => a == 0
  | none => false

/-- `f64::sqrt` in this model, driven by the same square-root map `S`. -/
def FS.sqrt (S : ℚ → ℚ) : FS → FS
  | some a => some (S a)
  | none => none

/-- `Vec2` over `FS`. -/
structure Vec2F where
  x : FS
  y : FS
deriving DecidableEq

/-- `Vec2::zero` over `FS`. -/
def Vec2F.zero : Vec2F := ⟨some 0, some 0⟩

/-- `Vec2::length` over `FS`. -/
def Vec2F.length (S : ℚ → ℚ) (v : Vec2F) : FS :=
  FS.sqrt S ((v.x.mul v.x).add (v.y.mul v.y))

/-- `Vec2::sub` over `FS`. -/
def Vec2F.sub (v w : Vec2F) : Vec2F := ⟨v.x.sub w.x, v.y.sub w.y⟩

/-- `Vec2::add` over `FS`. -/
def Vec2F.add (v w : Vec2F) : Vec2F := ⟨v.x.add w.x, v.y.add w.y⟩

/-- `Vec2::mul` over `FS`. -/
def Vec2F.mul (v : Vec2F) (s : FS) : Vec2F := ⟨v.x.mul s, v.y.mul s⟩

/-- `Vec2::div` over `FS`. -/
def Vec2F.div (v : Vec2F) (s : FS) : Vec2F := ⟨v.x.div s, v.y.div s⟩

/-- `Vec2::normalize` over `FS` (the `len == 0.0` test is IEEE `==`). -/
def Vec2F.normalize (S : ℚ → ℚ) (v : Vec2F) : Vec2F :=
  if (v.length S).eqZero then Vec2F.zero else v.mul (v.length S).recip

/-- `Particle` over `FS`. -/
structure ParticleF where
  position : Vec2F
  previous_position : Vec2F
  acceleration : Vec2F
  mass : FS
  pinned : Bool
deriving DecidableEq

/-- `Particle::new` over `FS`. -/
def ParticleF.new (position : Vec2F) (pinned : Bool) : ParticleF :=
  ⟨position, position, Vec2F.zero, some 1, pinned⟩

/-- Default particle for `List.getD` over `FS`. -/
def dpF : ParticleF := ParticleF.new Vec2F.zero false

/-- `Particle::apply_force` over `FS`. -/
def ParticleF.apply_force (p : ParticleF) (force : Vec2F) : ParticleF :=
  { p with acceleration := p.acceleration.add (force.div p.mass) }

/-- `Particle::update` over `FS`. -/
def ParticleF.update (delta_time : FS) (p : ParticleF) : ParticleF :=
  if p.pinned then p
  else
    { p with
      position :=
        (p.position.add (p.position.sub p.previous_position)).add
          (p.acceleration.mul (delta_time.mul delta_time))
      previous_position := p.position }

/-- `Particle::velocity` over `FS`. -/
def ParticleF.velocity (delta_time : FS) (p : ParticleF) : Vec2F :=
  (p.position.sub p.previous_position).div delta_time

/-- `Particle::damping_force` over `FS`. -/
def ParticleF.damping_force (delta_time : FS) (p : ParticleF) : Vec2F :=
  (p.velocity delta_time).mul (some (-DAMPING_CONSTANT))

/-- `fn gravity()` over `FS`. -/
def gravityF : Vec2F := ⟨some 0, some GRAVITY⟩

/-- `fn hookes_law` over `FS`. -/
def hookes_lawF (S : ℚ → ℚ) (p1 p2 : Vec2F) (rest_length : FS) : Vec2F :=
  let displacement := p2.sub p1
  let displacement2 :=
    (displacement.normalize S).mul (rest_length.sub (displacement.length S))
  displacement2.mul (some (-SPRING_CONSTANT))

/-- `Constraint` over `FS`. -/
structure ConstraintF where
  particle_a : Nat
  particle_b : Nat
  rest_length : FS
deriving DecidableEq

/-- First loop of `Cloth::simulate` over `FS`. -/
def applyExternalForcesF (delta_time : FS) (ps : List ParticleF) : List ParticleF :=
  ps.map fun p =>
    if p.pinned then p
    else
      let p1 := p.apply_force gravityF
      p1.apply_force (p1.damping_force delta_time)

/-- One constraint of the second loop of `Cloth::simulate` over `FS`. -/
def applyConstraintForceF (S : ℚ → ℚ) (ps : List ParticleF) (con : ConstraintF) :
    List ParticleF :=
  let pa := ps.getD con.particle_a dpF
  let pb := ps.getD con.particle_b dpF
  let force := hookes_lawF S pa.position pb.position con.rest_length
  let ps1 := if pa.pinned then ps else ps.set con.particle_a (pa.apply_force force)
  let pb1 := ps1.getD con.particle_b dpF
  if pb1.pinned then ps1
  else ps1.set con.particle_b (pb1.apply_force (force.mul (some (-1))))

/-- `Cloth::simulate` over `FS`: the four loops, on a particle and constraint
list. -/
def simulateF (S : ℚ → ℚ) (ps : List ParticleF) (cs : List ConstraintF)
    (delta_time : FS) : List ParticleF :=
  let ps1 := applyExternalForcesF delta_time ps
  let ps2 := cs.foldl (applyConstraintForceF S) ps1
  let ps3 := ps2.map (ParticleF.update delta_time)
  ps3.map fun p => { p with acceleration := Vec2F.zero }

/-- The particle list of the two-particle chain `cloth12` over `FS`: the
positions are exact small integers, so the `f64` values are these finite
rationals. -/
def particlesF12 : List ParticleF :=
  [ParticleF.new ⟨some 0, some 0⟩ true, ParticleF.new ⟨some 0, some 5⟩ false]

/-- The constraint list of `cloth12` over `FS`. -/
def constraintsF12 : List ConstraintF := [⟨0, 1, some 5⟩]

/-! ### Example meshes and the reachable-state relation -/

/-- A two-particle hanging chain: the mesh `Cloth::new(1, 2, 5.0)` was
intended to build — particle 0 pinned at the origin, particle 1 free at
`(0, 5)`, one structural constraint of rest length `5` (claims quantifying
over every mesh are refuted on this explicit mesh value). -/
def cloth12 : Cloth :=
  ⟨[Particle.new ⟨0, 0⟩ true, Particle.new ⟨0, 5⟩ false], [⟨0, 1, 5⟩], 1, 2, [], []⟩

/-- The mesh states reachable from construction through the public
operations.  The flag records whether `select_particles` is permitted; the
`Option`-valued operations contribute their successful results. -/
inductive ReachableFrom : Bool → Cloth → Prop
  | new (b : Bool) (sqrt2 : ℚ) (w h : Nat) (s : ℚ) :
      ReachableFrom b (Cloth.new sqrt2 w h s)
  | simulate (b : Bool) (S : ℚ → ℚ) (c : Cloth) (dt : ℚ) :
      ReachableFrom b c → ReachableFrom b (Cloth.simulate S c dt)
  | remove_constraint (b : Bool) (c : Cloth) (i : Nat) :
      ReachableFrom b c → ReachableFrom b (c.remove_constraint i)
  | remove_constraints (b : Bool) (c : Cloth) (f : Constraint → Bool) :
      ReachableFrom b c → ReachableFrom b (c.remove_constraints f)
  | cut_constraints (b : Bool) (c : Cloth) (i : Nat) :
      ReachableFrom b c → ReachableFrom b (c.cut_constraints_at_particle i)
  | cut_at_mouse (b : Bool) (S : ℚ → ℚ) (c : Cloth) (p : Vec2) (c2 : Cloth) :
      ReachableFrom b c → Cloth.cut_at_mouse S c p = some c2 → ReachableFrom b c2
  | select (S : ℚ → ℚ) (c : Cloth) (p : Vec2) (r : ℚ) :
      ReachableFrom true c → ReachableFrom true (Cloth.select_particles S c p r)
  | move (b : Bool) (c : Cloth) (p : Vec2) (c2 : Cloth) :
      ReachableFrom b c → Cloth.move_selected_particles c p = some c2 →
      ReachableFrom b c2
  | clear (b : Bool) (c : Cloth) :
      ReachableFrom b c → ReachableFrom b (Cloth.clear_selection c)

/-- A mesh state reachable by the full public interface. -/
def Reachable (c : Cloth) : Prop := ReachableFrom true c

/-- The distance `cut_at_mouse` computes for particle `k`:
`particle.position().sub(&mouse_position).length()`. -/
def cutDistance (S : ℚ → ℚ) (c : Cloth) (p : Vec2) (k : Nat) : ℚ :=
  ((c.particles.getD k dp).position.sub p).length S

/-! ### Vector algebra lemmas -/

theorem Vec2.add_zero_right (v : Vec2) : v.add Vec2.zero = v := by
  cases v
  simp [Vec2.add, Vec2.zero]

theorem Vec2.add_zero_left (v : Vec2) : Vec2.zero.add v = v := by
  cases v
  simp [Vec2.add, Vec2.zero]

theorem Vec2.add_assoc_right (u v w : Vec2) : (u.add v).add w = u.add (v.add w) := by
  cases u
  cases v
  cases w
  simp [Vec2.add]
  constructor <;> ring

theorem Vec2.sum_nil : Vec2.sum [] = Vec2.zero := rfl

theorem Vec2.sum_cons (v : Vec2) (l : List Vec2) :
    Vec2.sum (v :: l) = v.add (Vec2.sum l) := rfl

theorem Vec2.sum_eq_zero {l : List Vec2} (h : ∀ v ∈ l, v = Vec2.zero) :
    Vec2.sum l = Vec2.zero := by
  induction l with
  | nil => rfl
  | cons v t ih =>
      rw [Vec2.sum_cons, h v (List.mem_cons_self v t), ih fun w hw => h w (List.mem_cons_of_mem v hw)]
      exact Vec2.add_zero_right _

/-! ### The spring-force loop, one index at a time -/

theorem apply_force_position (p : Particle) (f : Vec2) :
    (p.apply_force f).position = p.position := rfl

theorem apply_force_pinned (p : Particle) (f : Vec2) :
    (p.apply_force f).pinned = p.pinned := rfl

theorem damping_force_apply_force (p : Particle) (f : Vec2) (dt : ℚ) :
    (p.apply_force f).damping_force dt = p.damping_force dt := rfl

/-- Effect of `applyForceAt` on every index, as a map over the optional element. -/
theorem applyForceAt_getElem (ps : List Particle) (i : Nat) (f : Vec2) (j : Nat) :
    (applyForceAt ps i f)[j]? =
      (ps[j]?).map fun p =>
        if i = j ∧ p.pinned = false then p.apply_force f else p := by
  unfold applyForceAt
  by_cases hi : i < ps.length
  · have hgd : ps.getD i dp = ps[i] := by
      simp [List.getD_eq_getElem?_getD, List.getElem?_eq_getElem hi]
    rw [hgd]
    by_cases hij : i = j
    · subst hij
      cases hpin : ps[i].pinned
      · simp [hpin, List.getElem?_set_self hi, List.getElem?_eq_getElem hi]
      · simp [hpin, List.getElem?_eq_getElem hi]
    · cases hpin : ps[i].pinned
      · simp [hpin, List.getElem?_set_ne hij, hij]
      · simp [hpin, hij]
  · have h1 : ps[i]? = none := by
      rw [List.getElem?_eq_none_iff]
      omega
    have hgd : ps.getD i dp = dp := by
      simp [List.getD_eq_getElem?_getD, h1]
    have hle : ps.length ≤ i := Nat.le_of_not_lt hi
    have hset : ps.set i (dp.apply_force f) = ps := List.set_eq_of_length_le hle
    rw [hgd]
    have hdppin : dp.pinned = false := rfl
    by_cases hij : i = j
    · subst hij
      simp [hdppin, hset, h1]
    · simp [hdppin, hset, hij]

theorem apply_force_mass (p : Particle) (f : Vec2) :
    (p.apply_force f).mass = p.mass := rfl

/-- Effect of one constraint of the spring loop on every index: only the
acceleration changes, by exactly `springAccContrib`. -/
theorem applyConstraintForce_getElem (S : ℚ → ℚ) (ps : List Particle)
    (con : Constraint) (j : Nat) :
    (applyConstraintForce S ps con)[j]? =
      (ps[j]?).map fun p =>
        { p with acceleration := p.acceleration.add (springAccContrib S ps j con) } := by
  unfold applyConstraintForce springAccContrib
  rw [applyForceAt_getElem, applyForceAt_getElem]
  cases hp : ps[j]? with
  | none => rfl
  | some p =>
      have hgd : ps.getD j dp = p := by
        simp [List.getD_eq_getElem?_getD, hp]
      simp only [Option.map_some']
      rcases Bool.eq_false_or_eq_true p.pinned with hpin | hpin <;>
        by_cases ha : con.particle_a = j <;> by_cases hb : con.particle_b = j <;>
          simp [ha, hb, hpin, hgd, hp, Particle.apply_force, Vec2.add_assoc_right,
            Vec2.add_zero_right, Vec2.add_zero_left] <;>
          (cases p
           simp_all)

/-- Reading a default-valued element of two lists that agree on position,
pinned flag and mass at every index. -/
theorem getD_shape_eq (ps qs : List Particle)
    (h : ∀ (k : Nat), (qs[k]?).map (fun (p : Particle) => (p.position, p.pinned, p.mass)) =
      (ps[k]?).map fun (p : Particle) => (p.position, p.pinned, p.mass)) (k : Nat) :
    ((qs.getD k dp).position, (qs.getD k dp).pinned, (qs.getD k dp).mass) =
      ((ps.getD k dp).position, (ps.getD k dp).pinned, (ps.getD k dp).mass) := by
  have hk := h k
  cases hq : qs[k]? <;> cases hps : ps[k]? <;> rw [hq, hps] at hk <;>
    simp_all [List.getD_eq_getElem?_getD, hq, hps, List.getElem?_eq_none]

/-- `springAccContrib` only reads positions, pinned flags and masses. -/
theorem springAccContrib_congr (S : ℚ → ℚ) (ps qs : List Particle) (j : Nat)
    (con : Constraint)
    (h : ∀ (k : Nat), (qs[k]?).map (fun (p : Particle) => (p.position, p.pinned, p.mass)) =
      (ps[k]?).map fun (p : Particle) => (p.position, p.pinned, p.mass)) :
    springAccContrib S qs j con = springAccContrib S ps j con := by
  have h1 := getD_shape_eq ps qs h con.particle_a
  have h2 := getD_shape_eq ps qs h con.particle_b
  have h3 := getD_shape_eq ps qs h j
  simp only [Prod.mk.injEq] at h1 h2 h3
  unfold springAccContrib
  rw [h1.1, h1.2.1, h2.1, h2.2.1, h3.2.2]

/-- One constraint of the spring loop preserves position, pinned flag and mass
at every index. -/
theorem applyConstraintForce_shape (S : ℚ → ℚ) (ps : List Particle)
    (con : Constraint) (k : Nat) :
    ((applyConstraintForce S ps con)[k]?).map (fun (p : Particle) => (p.position, p.pinned, p.mass)) =
      (ps[k]?).map fun (p : Particle) => (p.position, p.pinned, p.mass) := by
  rw [applyConstraintForce_getElem]
  cases hk : ps[k]? <;> simp

/-- The whole spring loop, on every index: only the acceleration changes, by
the sum of the per-constraint contributions computed from the initial list. -/
theorem springFold_getElem (S : ℚ → ℚ) :
    ∀ (cs : List Constraint) (ps : List Particle) (j : Nat),
    (cs.foldl (applyConstraintForce S) ps)[j]? =
      (ps[j]?).map fun p =>
        { p with acceleration :=
            p.acceleration.add (Vec2.sum (cs.map (springAccContrib S ps j))) }
  | [], ps, j => by
      cases hp : ps[j]? <;> simp [hp, Vec2.sum_nil, Vec2.add_zero_right]
  | con :: cs, ps, j => by
      rw [List.foldl_cons, springFold_getElem S cs (applyConstraintForce S ps con) j,
        applyConstraintForce_getElem]
      have hfn : springAccContrib S (applyConstraintForce S ps con) j =
          springAccContrib S ps j :=
        funext fun con2 =>
          springAccContrib_congr S ps (applyConstraintForce S ps con) j con2
            (applyConstraintForce_shape S ps con)
      rw [hfn]
      cases hp : ps[j]? with
      | none => rfl
      | some p =>
          simp only [Option.map_some', List.map_cons, Vec2.sum_cons]
          rw [Vec2.add_assoc_right]

theorem externalStep_pinned_id (dt : ℚ) (p : Particle) (h : p.pinned = true) :
    externalStep dt p = p := by
  unfold externalStep
  rw [h]
  rfl

theorem externalStep_unpinned (dt : ℚ) (p : Particle) (h : p.pinned = false) :
    externalStep dt p =
      { p with acceleration := (p.acceleration.add (gravity.div p.mass)).add ((p.damping_force dt).div p.mass) } := by
  unfold externalStep
  rw [h]
  simp [h, Particle.apply_force, Particle.damping_force, Particle.velocity]

/-- The external-force loop preserves position, pinned flag and mass. -/
theorem externalStep_shape (dt : ℚ) (ps : List Particle) (k : Nat) :
    ((ps.map (externalStep dt))[k]?).map
        (fun (p : Particle) => (p.position, p.pinned, p.mass)) =
      (ps[k]?).map fun (p : Particle) => (p.position, p.pinned, p.mass) := by
  rw [List.getElem?_map]
  cases hk : ps[k]? with
  | none => rfl
  | some p =>
      simp only [Option.map_some']
      rcases Bool.eq_false_or_eq_true p.pinned with hpin | hpin
      · rw [externalStep_pinned_id dt p hpin]
      · rw [externalStep_unpinned dt p hpin]

/-- Full characterisation of `Cloth::simulate` at every particle index: a
pinned particle only has its acceleration reset; an unpinned particle takes one
Verlet step under the sum of gravity, damping and the per-constraint Hooke
spring contributions, its previous position becomes the old position, and its
acceleration is reset. -/
theorem simulate_particles_getElem (S : ℚ → ℚ) (c : Cloth) (dt : ℚ) (j : Nat) :
    (Cloth.simulate S c dt).particles[j]? =
      (c.particles[j]?).map fun p =>
        if p.pinned = true then { p with acceleration := Vec2.zero }
        else
          { position :=
              (p.position.add (p.position.sub p.previous_position)).add
                ((((p.acceleration.add (gravity.div p.mass)).add
                  ((p.damping_force dt).div p.mass)).add
                  (Vec2.sum (c.constraints.map (springAccContrib S c.particles j)))).mul
                  (dt * dt))
            previous_position := p.position
            acceleration := Vec2.zero
            mass := p.mass
            pinned := p.pinned } := by
  unfold Cloth.simulate resetAccelerations updateParticles applySpringForces applyExternalForces
  simp only [List.getElem?_map]
  rw [springFold_getElem]
  simp only [List.getElem?_map]
  have hfn : springAccContrib S (c.particles.map (externalStep dt)) j =
      springAccContrib S c.particles j :=
    funext fun con =>
      springAccContrib_congr S c.particles (c.particles.map (externalStep dt)) j con
        (externalStep_shape dt c.particles)
  rw [hfn]
  cases hp : c.particles[j]? with
  | none => rfl
  | some p =>
      simp only [Option.map_some']
      rcases Bool.eq_false_or_eq_true p.pinned with hpin | hpin
      · rw [externalStep_pinned_id dt p hpin]
        simp [Particle.update, resetStep, hpin]
      · rw [externalStep_unpinned dt p hpin]
        simp [Particle.update, resetStep, hpin]

/-- Claim C2: for every mesh, every delta time and every particle whose pinned
flag is true before the call, that particle's position after `simulate` equals
its position before the call (zero displacement for pinned particles). -/
theorem C2_pinned_position_unchanged (S : ℚ → ℚ) (c : Cloth) (dt : ℚ) (i : Nat)
    (h : (c.particles.getD i dp).pinned = true) :
    ((Cloth.simulate S c dt).particles.getD i dp).position =
      (c.particles.getD i dp).position := by
  rw [List.getD_eq_getElem?_getD, List.getD_eq_getElem?_getD, simulate_particles_getElem]
  cases hp : c.particles[i]? with
  | none => rfl
  | some p =>
      rw [List.getD_eq_getElem?_getD, hp] at h
      simp only [Option.getD_some] at h
      simp [hp, h]

/-- Witness for C2 at a concrete input: particle 0 of `cloth12` is pinned, and
`simulate` leaves its position unchanged. -/
theorem C2_witness :
    (cloth12.particles.getD 0 dp).pinned = true ∧
      ((Cloth.simulate id cloth12 1).particles.getD 0 dp).position =
        (cloth12.particles.getD 0 dp).position :=
  ⟨rfl, C2_pinned_position_unchanged id cloth12 1 0 rfl⟩

/-- Claim C1 (amended): `simulate` handles constraints by Hooke's-law spring
forces accumulated before the Verlet integration — for every mesh, delta time
and index, the particle after `simulate` is exactly one Verlet step under
gravity, damping and the per-constraint spring contributions (computed from
the pre-step positions), with the acceleration then reset; pinned particles
only have their acceleration reset.  No constraint-relaxation phase follows
the integration: the integrated position receives no further correction. -/
theorem C1_simulate_is_spring_force_verlet (S : ℚ → ℚ) (c : Cloth) (dt : ℚ) (j : Nat) :
    (Cloth.simulate S c dt).particles[j]? =
      (c.particles[j]?).map fun p =>
        if p.pinned = true then { p with acceleration := Vec2.zero }
        else
          { position :=
              (p.position.add (p.position.sub p.previous_position)).add
                ((((p.acceleration.add (gravity.div p.mass)).add
                  ((p.damping_force dt).div p.mass)).add
                  (Vec2.sum (c.constraints.map (springAccContrib S c.particles j)))).mul
                  (dt * dt))
            previous_position := p.position
            acceleration := Vec2.zero
            mass := p.mass
            pinned := p.pinned } :=
  simulate_particles_getElem S c dt j

/-- One spec-side relaxation pass on the two-particle chain: with the pinned
anchor at the origin and the free particle on the positive y-axis, the free
particle moves to `(y*y + 5) / (2*y)` on the axis. -/
theorem relax_constraint_12 (p0 p1 : Particle) (h0 : p0.pinned = true)
    (h0p : p0.position = (⟨0, 0⟩ : Vec2)) (h1 : p1.pinned = false)
    (hx : p1.position.x = 0) (hy : 0 < p1.position.y) :
    relax_constraint id [p0, p1] ⟨0, 1, 5⟩ =
      [p0, { p1 with position :=
        ⟨0, (p1.position.y * p1.position.y + 5) / (2 * p1.position.y)⟩ }] := by
  have hyne : p1.position.y ≠ 0 := ne_of_gt hy
  have hyyne : p1.position.y * p1.position.y ≠ 0 := mul_ne_zero hyne hyne
  unfold relax_constraint
  simp [h0, h1, h0p, hx, hyyne, Vec2.sub, Vec2.length, Vec2.normalize, Vec2.mul,
    Vec2.add, Vec2.zero, dp, Particle.new]
  field_simp
  ring

/-- Any number of spec-side relaxation iterations keeps the free particle of
the two-particle chain strictly below the anchor (positive y), anchored
particle unchanged. -/
theorem relax_iters_12_pos :
    ∀ (n : Nat) (p0 p1 : Particle), p0.pinned = true →
      p0.position = (⟨0, 0⟩ : Vec2) → p1.pinned = false → p1.position.x = 0 →
      0 < p1.position.y →
      ∃ p2 : Particle, relax_iters id [⟨0, 1, 5⟩] n [p0, p1] = [p0, p2] ∧
        p2.pinned = false ∧ p2.position.x = 0 ∧ 0 < p2.position.y
  | 0, p0, p1, _, _, h1, hx, hy => ⟨p1, rfl, h1, hx, hy⟩
  | n + 1, p0, p1, h0, h0p, h1, hx, hy => by
      have hstep := relax_constraint_12 p0 p1 h0 h0p h1 hx hy
      have hy2 : 0 < (p1.position.y * p1.position.y + 5) / (2 * p1.position.y) :=
        div_pos (by positivity) (mul_pos (by norm_num) hy)
      have hone : relax_iters id [⟨0, 1, 5⟩] (n + 1) [p0, p1] =
          relax_iters id [⟨0, 1, 5⟩] n (relax_constraint id [p0, p1] ⟨0, 1, 5⟩) := rfl
      rw [hone, hstep]
      exact relax_iters_12_pos n p0 _ h0 h0p h1 rfl hy2

/-- Claim C1 counterexample: on the explicit mesh `cloth12` with a one-second
step, the source's `simulate` puts the free particle at `(0, -1008)` (the
spring force acts before integration), while the spec's integrate-then-relax
step leaves it at a strictly positive height for every iteration count, so no
fixed number of post-integration relaxation iterations reproduces `simulate`. -/
theorem C1_counterexample :
    ¬ ∃ iters : Nat, 1 ≤ iters ∧
      ((Cloth.simulate id cloth12 1).particles.getD 1 dp).position =
        ((simulate_relaxation_spec id iters cloth12 1).particles.getD 1 dp).position := by
  rintro ⟨k, _, heq⟩
  have hcode : ((Cloth.simulate id cloth12 1).particles.getD 1 dp).position =
      ⟨0, -1008⟩ := by
    norm_num [Cloth.simulate, resetAccelerations, updateParticles, applySpringForces,
      applyExternalForces, applyConstraintForce, applyForceAt, externalStep,
      Particle.apply_force, Particle.damping_force, Particle.velocity, Particle.update,
      hookes_law, Vec2.normalize, Vec2.length, Vec2.sub, Vec2.add, Vec2.mul, Vec2.div,
      Vec2.zero, gravity, GRAVITY, SPRING_CONSTANT, DAMPING_CONSTANT, cloth12, dp,
      Particle.new, resetStep]
  have hint : (updateParticles 1 (applyExternalForces 1 cloth12)).particles =
      [Particle.new ⟨0, 0⟩ true, ⟨⟨0, 992⟩, ⟨0, 5⟩, ⟨0, 987⟩, 1, false⟩] := by
    norm_num [updateParticles, applyExternalForces, externalStep, Particle.apply_force,
      Particle.damping_force, Particle.velocity, Particle.update, Vec2.sub, Vec2.add,
      Vec2.mul, Vec2.div, Vec2.zero, gravity, GRAVITY, DAMPING_CONSTANT, cloth12, dp,
      Particle.new]
  obtain ⟨p2, hr, _, _, hy2⟩ :=
    relax_iters_12_pos k (Particle.new ⟨0, 0⟩ true) ⟨⟨0, 992⟩, ⟨0, 5⟩, ⟨0, 987⟩, 1, false⟩
      rfl rfl rfl rfl (by norm_num)
  have hcons : (updateParticles 1 (applyExternalForces 1 cloth12)).constraints =
      [⟨0, 1, 5⟩] := rfl
  have hspec : ((simulate_relaxation_spec id k cloth12 1).particles.getD 1 dp).position =
      p2.position := by
    simp only [simulate_relaxation_spec]
    rw [hcons, hint, hr]
    simp [resetAccelerations, resetStep]
  rw [hcode, hspec] at heq
  have hyeq : (-1008 : ℚ) = p2.position.y := congrArg Vec2.y heq
  rw [← hyeq] at hy2
  norm_num at hy2

/-- Claim C8 counterexample: `Cloth::new(0, 3, 5.0)` signals no error — both
loops simply run zero iterations and a mesh with no particles (and no
constraints) is returned, contradicting the claimed precondition check. -/
theorem C8_counterexample :
    (Cloth.new (99 / 70) 0 3 5).particles = [] ∧
      (Cloth.new (99 / 70) 0 3 5).constraints = [] := by
  constructor <;> simp [Cloth.new, List.flatMap_eq_nil_iff]

/-- Claim C8 (amended): construction with `width = 0` or `height = 0` raises
no error and returns the degenerate empty mesh: zero particles and zero
constraints. -/
theorem C8_zero_dimension_empty_mesh (sqrt2 : ℚ) (w h : Nat) (s : ℚ)
    (hzero : w = 0 ∨ h = 0) :
    (Cloth.new sqrt2 w h s).particles = [] ∧ (Cloth.new sqrt2 w h s).constraints = [] := by
  rcases hzero with hw | hh
  · subst hw
    constructor <;> simp [Cloth.new, List.flatMap_eq_nil_iff]
  · subst hh
    constructor <;> simp [Cloth.new]

/-- Witness for the amended C8 at width 0. -/
theorem C8_witness :
    (Cloth.new (99 / 70) 0 5 7).particles = [] ∧
      (Cloth.new (99 / 70) 0 5 7).constraints = [] :=
  C8_zero_dimension_empty_mesh (99 / 70) 0 5 7 (Or.inl rfl)

/-- Length of a row-major grid flattening. -/
theorem flatMap_range_length {α : Type} (f : Nat → List α) (w : Nat)
    (hf : ∀ y, (f y).length = w) :
    ∀ h : Nat, ((List.range h).flatMap f).length = h * w := by
  intro h
  induction h with
  | zero => simp
  | succ n ih =>
      rw [List.range_succ, List.flatMap_append, List.length_append, ih]
      simp [hf, Nat.succ_mul]

/-- Indexing a row-major grid flattening at `y*w + x`. -/
theorem flatMap_range_getElem {α : Type} (f : Nat → List α) (w : Nat)
    (hf : ∀ y, (f y).length = w) :
    ∀ (h y x : Nat), y < h → x < w →
      ((List.range h).flatMap f)[y * w + x]? = (f y)[x]? := by
  intro h
  induction h with
  | zero => omega
  | succ n ih =>
      intro y x hy hx
      rw [List.range_succ, List.flatMap_append]
      by_cases hyn : y < n
      · have hlt : y * w + x < ((List.range n).flatMap f).length := by
          rw [flatMap_range_length f w hf n]
          have h1 : (y + 1) * w ≤ n * w := Nat.mul_le_mul_right w hyn
          have h2 : (y + 1) * w = y * w + w := by ring
          omega
        rw [List.getElem?_append, if_pos hlt]
        exact ih y x hyn hx
      · have hyeq : y = n := by omega
        subst hyeq
        have hlen : ((List.range y).flatMap f).length = y * w :=
          flatMap_range_length f w hf y
        rw [List.getElem?_append_right (by omega)]
        simp [hlen]

/-- Claim C4: for `width, height ≥ 1` and positive spacing, the constructed
mesh has exactly `width * height` particles, the particle of grid cell
`(x, y)` sits at index `y*width + x` with position `(x*spacing, y*spacing)`,
and it is pinned exactly when `y = 0`. -/
theorem C4_grid_construction (sqrt2 : ℚ) (w h : Nat) (s : ℚ)
    (hw : 1 ≤ w) (hh : 1 ≤ h) (hs : 0 < s) :
    (Cloth.new sqrt2 w h s).particles.length = w * h ∧
      ∀ x y : Nat, x < w → y < h →
        (Cloth.new sqrt2 w h s).particles[y * w + x]? =
          some (Particle.new ⟨(x : ℚ) * s, (y : ℚ) * s⟩ (y == 0)) := by
  have hf : ∀ y : Nat,
      ((List.range w).map fun (x : Nat) =>
        Particle.new ⟨(x : ℚ) * s, (y : ℚ) * s⟩ (y == 0)).length = w := by
    intro y
    simp
  constructor
  · show ((List.range h).flatMap _).length = w * h
    rw [flatMap_range_length _ w hf h, Nat.mul_comm]
  · intro x y hx hy
    show ((List.range h).flatMap _)[y * w + x]? = _
    rw [flatMap_range_getElem _ w hf h y x hy hx]
    simp [List.getElem?_map, List.getElem?_range hx]

/-- Witness for C4 on the 3-by-3 grid: nine particles, and the cell `(1, 2)`
particle sits at index 7, position `(5, 10)`, unpinned. -/
theorem C4_witness :
    (Cloth.new (99 / 70) 3 3 5).particles.length = 3 * 3 ∧
      (Cloth.new (99 / 70) 3 3 5).particles[2 * 3 + 1]? =
        some (Particle.new ⟨(1 : ℚ) * 5, (2 : ℚ) * 5⟩ (2 == 0)) := by
  obtain ⟨h1, h2⟩ :=
    C4_grid_construction (99 / 70) 3 3 5 (by norm_num) (by norm_num) (by norm_num)
  exact ⟨h1, h2 1 2 (by norm_num) (by norm_num)⟩

theorem Vec2.add_sub_cancel_self (p v : Vec2) : p.add (v.sub p) = v := by
  cases p
  cases v
  simp [Vec2.add, Vec2.sub]

/-- Characterisation of the `select_particles` pass: selected indices and
offsets come in equal numbers, every selected index is in range with its
offset recording `position - mouse`, and no particle position changes. -/
theorem selectAux_spec (S : ℚ → ℚ) (p : Vec2) (r : ℚ) :
    ∀ (ps : List Particle) (i0 : Nat),
      (selectAux S p r i0 ps).1.length = (selectAux S p r i0 ps).2.1.length ∧
      (∀ k : Nat, (((selectAux S p r i0 ps).2.2)[k]?).map (fun q => q.position) =
        (ps[k]?).map fun q => q.position) ∧
      (∀ i ∈ (selectAux S p r i0 ps).1, i0 ≤ i ∧ i - i0 < ps.length) ∧
      ∀ pr ∈ (selectAux S p r i0 ps).1.zip (selectAux S p r i0 ps).2.1,
        ∃ q, ps[pr.1 - i0]? = some q ∧ pr.2 = q.position.sub p
  | [], i0 => by simp [selectAux]
  | q :: qs, i0 => by
      obtain ⟨ih1, ih2, ih3, ih4⟩ := selectAux_spec S p r qs (i0 + 1)
      by_cases hc : (q.position.sub p).length S ≤ r
      · refine ⟨by simp [selectAux, hc, ih1], ?_, ?_, ?_⟩
        · intro k
          cases k with
          | zero => simp [selectAux, hc]
          | succ n => simpa [selectAux, hc] using ih2 n
        · intro i hi
          rw [show selectAux S p r i0 (q :: qs) =
            (i0 :: (selectAux S p r (i0 + 1) qs).1,
              (q.position.sub p) :: (selectAux S p r (i0 + 1) qs).2.1,
              { q with pinned := true } :: (selectAux S p r (i0 + 1) qs).2.2) by
            simp [selectAux, hc]] at hi
          rcases List.mem_cons.mp hi with h0 | h0
          · subst h0
            simp
          · obtain ⟨hle, hlt⟩ := ih3 i h0
            simp only [List.length_cons]
            omega
        · intro pr hpr
          rw [show selectAux S p r i0 (q :: qs) =
            (i0 :: (selectAux S p r (i0 + 1) qs).1,
              (q.position.sub p) :: (selectAux S p r (i0 + 1) qs).2.1,
              { q with pinned := true } :: (selectAux S p r (i0 + 1) qs).2.2) by
            simp [selectAux, hc]] at hpr
          rw [List.zip_cons_cons] at hpr
          rcases List.mem_cons.mp hpr with h0 | h0
          · subst h0
            exact ⟨q, by simp, rfl⟩
          · obtain ⟨q2, hq2, hoff⟩ := ih4 pr h0
            obtain ⟨hle, _⟩ := ih3 pr.1 (List.of_mem_zip h0).1
            refine ⟨q2, ?_, hoff⟩
            have hidx : pr.1 - i0 = (pr.1 - (i0 + 1)) + 1 := by omega
            rw [hidx]
            simpa using hq2
      · refine ⟨by simp [selectAux, hc, ih1], ?_, ?_, ?_⟩
        · intro k
          cases k with
          | zero => simp [selectAux, hc]
          | succ n => simpa [selectAux, hc] using ih2 n
        · intro i hi
          rw [show selectAux S p r i0 (q :: qs) =
            ((selectAux S p r (i0 + 1) qs).1, (selectAux S p r (i0 + 1) qs).2.1,
              q :: (selectAux S p r (i0 + 1) qs).2.2) by simp [selectAux, hc]] at hi
          obtain ⟨hle, hlt⟩ := ih3 i hi
          simp only [List.length_cons]
          omega
        · intro pr hpr
          rw [show selectAux S p r i0 (q :: qs) =
            ((selectAux S p r (i0 + 1) qs).1, (selectAux S p r (i0 + 1) qs).2.1,
              q :: (selectAux S p r (i0 + 1) qs).2.2) by simp [selectAux, hc]] at hpr
          obtain ⟨q2, hq2, hoff⟩ := ih4 pr hpr
          obtain ⟨hle, _⟩ := ih3 pr.1 (List.of_mem_zip hpr).1
          refine ⟨q2, ?_, hoff⟩
          have hidx : pr.1 - i0 = (pr.1 - (i0 + 1)) + 1 := by omega
          rw [hidx]
          simpa using hq2

/-- The `move_selected_particles` fold leaves every position unchanged when
each offset records exactly the vector from the mouse to the particle it is
zipped with. -/
theorem moveFold_positions (mouse : Vec2) :
    ∀ (pairs : List (Nat × Vec2)) (ps : List Particle),
      (∀ pr ∈ pairs, ((ps[pr.1]?).map fun q => q.position) = some (mouse.add pr.2)) →
      ∀ k : Nat, ((pairs.foldl (moveStep mouse) ps)[k]?).map (fun q => q.position) =
        (ps[k]?).map fun q => q.position
  | [], _, _, _ => rfl
  | pr :: prs, ps, hinv, k => by
      have hpr := hinv pr (List.mem_cons_self pr prs)
      obtain ⟨q, hq, hqpos⟩ : ∃ q, ps[pr.1]? = some q ∧ q.position = mouse.add pr.2 := by
        cases hq : ps[pr.1]? with
        | none =>
            rw [hq] at hpr
            exact Option.noConfusion hpr
        | some q =>
            rw [hq] at hpr
            exact ⟨q, rfl, Option.some.inj hpr⟩
      have hlt : pr.1 < ps.length := by
        by_contra hc
        rw [List.getElem?_eq_none_iff.mpr (Nat.le_of_not_lt hc)] at hq
        exact Option.noConfusion hq
      have hstep : ∀ m : Nat,
          ((moveStep mouse ps pr)[m]?).map (fun q2 => q2.position) =
            (ps[m]?).map fun q2 => q2.position := by
        intro m
        unfold moveStep
        by_cases hm : pr.1 = m
        · subst hm
          rw [List.getElem?_set_self hlt, hq]
          simp [Particle.set_position, hqpos]
        · rw [List.getElem?_set_ne hm]
      rw [List.foldl_cons]
      have hinv2 : ∀ pr2 ∈ prs,
          (((moveStep mouse ps pr)[pr2.1]?).map fun q2 => q2.position) =
            some (mouse.add pr2.2) := by
        intro pr2 h2
        rw [hstep pr2.1]
        exact hinv pr2 (List.mem_cons_of_mem pr h2)
      rw [moveFold_positions mouse prs (moveStep mouse ps pr) hinv2 k, hstep k]

/-- Lists whose optional reads agree under maps have equal length. -/
theorem length_eq_of_getElem?_map_eq {α β : Type} (xs ys : List α) (f g : α → β)
    (h : ∀ k : Nat, (xs[k]?).map f = (ys[k]?).map g) : xs.length = ys.length := by
  by_contra hne
  rcases Nat.lt_or_ge xs.length ys.length with hlt | hge
  · have h1 : xs[xs.length]? = none := List.getElem?_eq_none_iff.mpr (Nat.le_refl _)
    have h2 : ys[xs.length]? = some (ys[xs.length]) := List.getElem?_eq_getElem hlt
    have := h xs.length
    rw [h1, h2] at this
    exact Option.noConfusion this
  · have hlt : ys.length < xs.length := Nat.lt_of_le_of_ne hge fun hh => hne hh.symm
    have h1 : ys[ys.length]? = none := List.getElem?_eq_none_iff.mpr (Nat.le_refl _)
    have h2 : xs[ys.length]? = some (xs[ys.length]) := List.getElem?_eq_getElem hlt
    have := h ys.length
    rw [h1, h2] at this
    exact Option.noConfusion this

/-- Claim C6: for every mesh, pointer position and radius, `select_particles`
followed immediately by `move_selected_particles` at the same pointer position
succeeds and leaves every particle position unchanged — the recorded offset
`particle_position - p` cancels exactly when added back to `p`. -/
theorem C6_select_then_move_roundtrip (S : ℚ → ℚ) (c : Cloth) (p : Vec2) (r : ℚ) :
    ∃ c2 : Cloth, (Cloth.select_particles S c p r).move_selected_particles p = some c2 ∧
      ∀ k : Nat, ((c2.particles[k]?).map fun q => q.position) =
        (c.particles[k]?).map fun q => q.position := by
  obtain ⟨hlen, hpos, hidx, hzip⟩ := selectAux_spec S p r c.particles 0
  have hlen22 : (selectAux S p r 0 c.particles).2.2.length = c.particles.length :=
    length_eq_of_getElem?_map_eq _ _ _ _ hpos
  have hguard : (Cloth.select_particles S c p r).selected_particles.length ≤
      (Cloth.select_particles S c p r).selection_offsets.length ∧
      ∀ i ∈ (Cloth.select_particles S c p r).selected_particles,
        i < (Cloth.select_particles S c p r).particles.length := by
    constructor
    · exact Nat.le_of_eq hlen
    · intro i hi
      obtain ⟨_, hlt⟩ := hidx i hi
      rw [show (Cloth.select_particles S c p r).particles.length =
        c.particles.length from hlen22]
      omega
  have hinv : ∀ pr ∈ (selectAux S p r 0 c.particles).1.zip
      (selectAux S p r 0 c.particles).2.1,
      ((((selectAux S p r 0 c.particles).2.2)[pr.1]?).map fun q => q.position) =
        some (p.add pr.2) := by
    intro pr hpr
    obtain ⟨q, hq, hoff⟩ := hzip pr hpr
    rw [hpos pr.1]
    rw [show pr.1 - 0 = pr.1 from rfl] at hq
    rw [hq]
    simp only [Option.map_some']
    rw [hoff, Vec2.add_sub_cancel_self]
  have hmove : (Cloth.select_particles S c p r).move_selected_particles p =
      some { Cloth.select_particles S c p r with particles := ((Cloth.select_particles S c p r).selected_particles.zip (Cloth.select_particles S c p r).selection_offsets).foldl (moveStep p) (Cloth.select_particles S c p r).particles } := by
    unfold Cloth.move_selected_particles
    rw [if_pos hguard]
  refine ⟨_, hmove, fun k => ?_⟩
  exact (moveFold_positions p
    ((selectAux S p r 0 c.particles).1.zip (selectAux S p r 0 c.particles).2.1)
    ((selectAux S p r 0 c.particles).2.2) hinv k).trans (hpos k)

/-- `simulate` does not change the particle count. -/
theorem simulate_length (S : ℚ → ℚ) (c : Cloth) (dt : ℚ) :
    (Cloth.simulate S c dt).particles.length = c.particles.length := by
  refine length_eq_of_getElem?_map_eq _ _ (fun _ => ()) (fun _ => ()) fun k => ?_
  rw [simulate_particles_getElem]
  cases c.particles[k]? <;> rfl

/-- The `move_selected_particles` fold does not change the particle count. -/
theorem moveFold_length (mouse : Vec2) :
    ∀ (pairs : List (Nat × Vec2)) (ps : List Particle),
      (pairs.foldl (moveStep mouse) ps).length = ps.length
  | [], _ => rfl
  | pr :: prs, ps => by
      rw [List.foldl_cons, moveFold_length mouse prs (moveStep mouse ps pr)]
      unfold moveStep
      exact List.length_set ps pr.1 _

/-- Fields of a successful `move_selected_particles`. -/
theorem move_selected_some (c : Cloth) (p : Vec2) (c2 : Cloth)
    (h : c.move_selected_particles p = some c2) :
    c2.selected_particles = c.selected_particles ∧
      c2.selection_offsets = c.selection_offsets ∧
      c2.particles.length = c.particles.length := by
  unfold Cloth.move_selected_particles at h
  by_cases hc : c.selected_particles.length ≤ c.selection_offsets.length ∧
      ∀ i ∈ c.selected_particles, i < c.particles.length
  · rw [if_pos hc] at h
    have h2 := Option.some.inj h
    subst h2
    exact ⟨rfl, rfl, moveFold_length p _ _⟩
  · rw [if_neg hc] at h
    exact Option.noConfusion h

/-- Fields of a successful `cut_at_mouse`: only the constraint list changes. -/
theorem cut_at_mouse_some (S : ℚ → ℚ) (c : Cloth) (p : Vec2) (c2 : Cloth)
    (h : Cloth.cut_at_mouse S c p = some c2) :
    c2.particles = c.particles ∧
      c2.selected_particles = c.selected_particles ∧
      c2.selection_offsets = c.selection_offsets := by
  unfold Cloth.cut_at_mouse at h
  cases hm : min_by_first ((c.particles.map fun q => (q.position.sub p).length S).enum) with
  | none =>
      rw [hm] at h
      exact Option.noConfusion h
  | some pr =>
      rw [hm] at h
      have h2 := Option.some.inj h
      subst h2
      by_cases hlt : pr.2 < CUT_THRESHOLD
      · simp [hlt, Cloth.cut_constraints_at_particle]
      · simp [hlt]

/-- Every reachable mesh state has selection and offset lists of equal length,
with every selected index a valid particle index. -/
theorem reachable_selection_wf (b : Bool) (c : Cloth) (h : ReachableFrom b c) :
    c.selected_particles.length = c.selection_offsets.length ∧
      ∀ i ∈ c.selected_particles, i < c.particles.length := by
  induction h with
  | new b sqrt2 w hh s =>
      refine ⟨rfl, ?_⟩
      intro i hi
      exact absurd hi (List.not_mem_nil i)
  | simulate b S c dt hr ih =>
      refine ⟨ih.1, ?_⟩
      intro i hi
      rw [simulate_length]
      exact ih.2 i hi
  | remove_constraint b c i hr ih =>
      unfold Cloth.remove_constraint
      by_cases hlt : i < c.constraints.length
      · rw [if_pos hlt]
        exact ih
      · rw [if_neg hlt]
        exact ih
  | remove_constraints b c f hr ih => exact ih
  | cut_constraints b c i hr ih => exact ih
  | cut_at_mouse b S c p c2 hr heq ih =>
      obtain ⟨hp, hs, ho⟩ := cut_at_mouse_some S c p c2 heq
      rw [hp, hs, ho]
      exact ih
  | select S c p r hr ih =>
      obtain ⟨hlen, hpos, hidx, _⟩ := selectAux_spec S p r c.particles 0
      have hlen22 : (selectAux S p r 0 c.particles).2.2.length = c.particles.length :=
        length_eq_of_getElem?_map_eq _ _ _ _ hpos
      refine ⟨hlen, ?_⟩
      intro i hi
      obtain ⟨_, hlt⟩ := hidx i hi
      show i < (selectAux S p r 0 c.particles).2.2.length
      omega
  | move b c p c2 hr heq ih =>
      obtain ⟨hs, ho, hl⟩ := move_selected_some c p c2 heq
      rw [hs, ho, hl]
      exact ih
  | clear b c hr ih =>
      refine ⟨rfl, ?_⟩
      intro i hi
      exact absurd hi (List.not_mem_nil i)

/-- Claim C10: in every reachable state the selection and offset lists have
equal length and all selected indices are in range, so
`move_selected_particles` never indexes out of bounds (its panic case is
unreachable). -/
theorem C10_selection_lists_in_lockstep (c : Cloth) (h : Reachable c) :
    c.selected_particles.length = c.selection_offsets.length ∧
      ∀ m : Vec2, (c.move_selected_particles m).isSome = true := by
  obtain ⟨hlen, hidx⟩ := reachable_selection_wf true c h
  refine ⟨hlen, fun m => ?_⟩
  unfold Cloth.move_selected_particles
  rw [if_pos ⟨Nat.le_of_eq hlen, hidx⟩]
  rfl

/-- Witness for C10 at a concrete reachable state: a freshly selected 2-by-2
mesh. -/
theorem C10_witness :
    ((Cloth.new (99 / 70) 2 2 5).select_particles id ⟨0, 0⟩ 1).selected_particles.length =
      ((Cloth.new (99 / 70) 2 2 5).select_particles id ⟨0, 0⟩ 1).selection_offsets.length ∧
      ((((Cloth.new (99 / 70) 2 2 5).select_particles id ⟨0, 0⟩ 1).move_selected_particles
        ⟨3, 4⟩).isSome) = true := by
  obtain ⟨h1, h2⟩ := C10_selection_lists_in_lockstep
    ((Cloth.new (99 / 70) 2 2 5).select_particles id ⟨0, 0⟩ 1)
    (ReachableFrom.select id (Cloth.new (99 / 70) 2 2 5) ⟨0, 0⟩ 1
      (ReachableFrom.new true (99 / 70) 2 2 5))
  exact ⟨h1, h2 ⟨3, 4⟩⟩

/-- Behaviour of the `min_by` fold over an enumerated tail: either the
accumulator is already minimal (and is returned), or the result is the first
strictly-smaller element of the tail, minimal among the tail. -/
theorem minByAux_spec :
    ∀ (l : List ℚ) (k : Nat) (b : Nat × ℚ),
      (minByAux b (List.enumFrom k l) = b ∧ ∀ d ∈ l, b.2 ≤ d) ∨
      (∃ (m : Nat) (d : ℚ), l[m]? = some d ∧
        minByAux b (List.enumFrom k l) = (k + m, d) ∧ d < b.2 ∧
        (∀ m2 : Nat, m2 < m → ∀ d2 : ℚ, l[m2]? = some d2 → d < d2) ∧
        ∀ d2 ∈ l, d ≤ d2)
  | [], k, b => Or.inl ⟨rfl, by simp⟩
  | d :: ds, k, b => by
      rw [List.enumFrom_cons]
      have hstep : minByAux b ((k, d) :: List.enumFrom (k + 1) ds) =
          minByAux (if d < b.2 then (k, d) else b) (List.enumFrom (k + 1) ds) := rfl
      rw [hstep]
      by_cases hd : d < b.2
      · rw [if_pos hd]
        rcases minByAux_spec ds (k + 1) (k, d) with ⟨heq, hall⟩ | ⟨m, d2, hget, heq, hlt, hbef, hall⟩
        · refine Or.inr ⟨0, d, by simp, ?_, hd, ?_, ?_⟩
          · rw [heq]
            simp
          · intro m2 hm2
            omega
          · intro d2 hd2
            rcases List.mem_cons.mp hd2 with h0 | h0
            · exact le_of_eq h0.symm
            · exact hall d2 h0
        · refine Or.inr ⟨m + 1, d2, by simpa using hget, ?_, ?_, ?_, ?_⟩
          · rw [heq]
            have : k + (m + 1) = k + 1 + m := by omega
            rw [this]
          · exact lt_trans hlt hd
          · intro m2 hm2 d3 hd3
            cases m2 with
            | zero =>
                simp only [List.getElem?_cons_zero, Option.some.injEq] at hd3
                rw [← hd3]
                exact hlt
            | succ n =>
                simp only [List.getElem?_cons_succ] at hd3
                exact hbef n (by omega) d3 hd3
          · intro d3 hd3
            rcases List.mem_cons.mp hd3 with h0 | h0
            · rw [h0]
              exact le_of_lt hlt
            · exact hall d3 h0
      · rw [if_neg hd]
        rcases minByAux_spec ds (k + 1) b with ⟨heq, hall⟩ | ⟨m, d2, hget, heq, hlt, hbef, hall⟩
        · refine Or.inl ⟨heq, ?_⟩
          intro d2 hd2
          rcases List.mem_cons.mp hd2 with h0 | h0
          · rw [h0]
            exact le_of_not_lt hd
          · exact hall d2 h0
        · refine Or.inr ⟨m + 1, d2, by simpa using hget, ?_, hlt, ?_, ?_⟩
          · rw [heq]
            have : k + (m + 1) = k + 1 + m := by omega
            rw [this]
          · intro m2 hm2 d3 hd3
            cases m2 with
            | zero =>
                simp only [List.getElem?_cons_zero, Option.some.injEq] at hd3
                rw [← hd3]
                exact lt_of_lt_of_le hlt (le_of_not_lt hd)
            | succ n =>
                simp only [List.getElem?_cons_succ] at hd3
                exact hbef n (by omega) d3 hd3
          · intro d3 hd3
            rcases List.mem_cons.mp hd3 with h0 | h0
            · rw [h0]
              exact le_of_lt (lt_of_lt_of_le hlt (le_of_not_lt hd))
            · exact hall d3 h0

/-- The nearest-particle search of `cut_at_mouse` on a non-empty mesh returns
the first index attaining the minimal computed distance. -/
theorem min_by_first_spec (S : ℚ → ℚ) (c : Cloth) (p : Vec2) (hne : c.particles ≠ []) :
    ∃ (j : Nat) (dj : ℚ),
      min_by_first ((c.particles.map fun q => ((q.position.sub p).length S)).enum) =
        some (j, dj) ∧
      j < c.particles.length ∧ dj = cutDistance S c p j ∧
      (∀ k : Nat, k < c.particles.length → dj ≤ cutDistance S c p k) ∧
      (∀ k : Nat, k < j → dj < cutDistance S c p k) := by
  obtain ⟨q0, rest, hl⟩ := List.exists_cons_of_ne_nil hne
  have hdist : ∀ (k : Nat) (qk : Particle), c.particles[k]? = some qk →
      cutDistance S c p k = (qk.position.sub p).length S := by
    intro k qk hk
    unfold cutDistance
    rw [List.getD_eq_getElem?_getD, hk]
    rfl
  have hd0 : cutDistance S c p 0 = (q0.position.sub p).length S :=
    hdist 0 q0 (by rw [hl]; simp)
  have hdrest : ∀ (n : Nat) (qk : Particle), rest[n]? = some qk →
      cutDistance S c p (n + 1) = (qk.position.sub p).length S := by
    intro n qk hk
    refine hdist (n + 1) qk ?_
    rw [hl, List.getElem?_cons_succ]
    exact hk
  have hlen : c.particles.length = rest.length + 1 := by
    rw [hl]
    rfl
  rw [hl, List.map_cons, List.enum_cons]
  simp only [min_by_first, List.length_cons]
  rcases minByAux_spec (rest.map fun q => ((q.position.sub p).length S)) 1
      (0, (q0.position.sub p).length S) with
    ⟨heq, hall⟩ | ⟨m, d2, hget, heq, hlt, hbef, hall⟩
  · refine ⟨0, (q0.position.sub p).length S, by rw [heq], by omega, hd0.symm, ?_, ?_⟩
    · intro k hk
      cases k with
      | zero => exact le_of_eq hd0.symm
      | succ n =>
          have hn : n < rest.length := by omega
          have hk2 : rest[n]? = some rest[n] := List.getElem?_eq_getElem hn
          have hmem : ((rest[n].position.sub p).length S) ∈
              rest.map fun q => ((q.position.sub p).length S) := by
            apply List.mem_map_of_mem
            exact List.getElem?_mem hk2
          rw [hdrest n rest[n] hk2]
          exact hall _ hmem
    · intro k hk
      omega
  · obtain ⟨qm, hqm, hfq⟩ : ∃ qm, rest[m]? = some qm ∧
        ((qm.position.sub p).length S) = d2 := by
      rw [List.getElem?_map] at hget
      cases hq : rest[m]? with
      | none =>
          rw [hq] at hget
          exact Option.noConfusion hget
      | some qm =>
          rw [hq] at hget
          exact ⟨qm, rfl, Option.some.inj hget⟩
    have hm : m < rest.length := by
      by_contra hc
      rw [List.getElem?_eq_none_iff.mpr (Nat.le_of_not_lt hc)] at hqm
      exact Option.noConfusion hqm
    refine ⟨1 + m, d2, by rw [heq], by omega, ?_, ?_, ?_⟩
    · have : 1 + m = m + 1 := by omega
      rw [this, hdrest m qm hqm, hfq]
    · intro k hk
      cases k with
      | zero =>
          rw [hd0]
          exact le_of_lt hlt
      | succ n =>
          have hn : n < rest.length := by omega
          have hk2 : rest[n]? = some rest[n] := List.getElem?_eq_getElem hn
          have hmem : ((rest[n].position.sub p).length S) ∈
              rest.map fun q => ((q.position.sub p).length S) := by
            apply List.mem_map_of_mem
            exact List.getElem?_mem hk2
          rw [hdrest n rest[n] hk2]
          exact hall _ hmem
    · intro k hk
      cases k with
      | zero =>
          rw [hd0]
          exact hlt
      | succ n =>
          have hn : n < m := by omega
          have hn2 : n < rest.length := by omega
          have hk2 : rest[n]? = some rest[n] := List.getElem?_eq_getElem hn2
          have hgn : (rest.map fun q => ((q.position.sub p).length S))[n]? =
              some ((rest[n].position.sub p).length S) := by
            rw [List.getElem?_map, hk2]
            rfl
          rw [hdrest n rest[n] hk2]
          exact hbef n hn _ hgn

/-- Claim C7: on a mesh with at least one particle (and a square-root map with
`S 0` inside the threshold, true of `f64::sqrt`), `cut_at_mouse` at a position
coinciding with some particle's position removes exactly the constraints
touching the nearest particle `j` — the first index attaining the minimal
computed distance — and leaves the constraint set unchanged when every
particle's computed distance reaches the threshold. -/
theorem C7_cut_at_mouse_spec (S : ℚ → ℚ) (c : Cloth) (p : Vec2)
    (hthr : S 0 < CUT_THRESHOLD) (hne : c.particles ≠ []) :
    ((∃ i : Nat, i < c.particles.length ∧ (c.particles.getD i dp).position = p) →
      ∃ j : Nat, j < c.particles.length ∧
        (∀ k : Nat, k < c.particles.length →
          cutDistance S c p j ≤ cutDistance S c p k) ∧
        (∀ k : Nat, k < j → cutDistance S c p j < cutDistance S c p k) ∧
        ∃ c2 : Cloth, Cloth.cut_at_mouse S c p = some c2 ∧
          c2.particles = c.particles ∧
          c2.constraints = c.constraints.filter fun con =>
            con.particle_a != j && con.particle_b != j) ∧
    ((∀ k : Nat, k < c.particles.length → CUT_THRESHOLD ≤ cutDistance S c p k) →
      Cloth.cut_at_mouse S c p = some c) := by
  obtain ⟨j, dj, hmin, hj, hdj, hle, hbef⟩ := min_by_first_spec S c p hne
  constructor
  · rintro ⟨i, hi, hcoin⟩
    have hdi : cutDistance S c p i = S 0 := by
      unfold cutDistance
      rw [hcoin]
      have : p.sub p = Vec2.zero := by
        cases p
        simp [Vec2.sub, Vec2.zero]
      rw [this]
      unfold Vec2.length Vec2.zero
      norm_num
    have hdj10 : dj < CUT_THRESHOLD := by
      have h1 : dj ≤ cutDistance S c p i := hle i hi
      rw [hdi] at h1
      exact lt_of_le_of_lt h1 hthr
    refine ⟨j, hj, ?_, ?_, ?_⟩
    · rw [← hdj]
      exact hle
    · rw [← hdj]
      exact hbef
    · refine ⟨c.cut_constraints_at_particle j, ?_, rfl, rfl⟩
      unfold Cloth.cut_at_mouse
      rw [hmin]
      show some (if dj < CUT_THRESHOLD then c.cut_constraints_at_particle j else c) = _
      rw [if_pos hdj10]
  · intro hfar
    have hdj10 : ¬ dj < CUT_THRESHOLD := by
      have h1 := hfar j hj
      rw [← hdj] at h1
      exact not_lt_of_le h1
    unfold Cloth.cut_at_mouse
    rw [hmin]
    show some (if dj < CUT_THRESHOLD then c.cut_constraints_at_particle j else c) = _
    rw [if_neg hdj10]

/-- Witness for C7 on a concrete 2-by-2 mesh of spacing 20 with the identity
standing in for the square-root map: cutting exactly at particle 0's position
removes exactly the constraints touching its nearest particle, and cutting far
away leaves the constraints unchanged. -/
theorem C7_witness :
    (∃ j : Nat, j < (Cloth.new (99 / 70) 2 2 20).particles.length ∧
      (∀ k : Nat, k < (Cloth.new (99 / 70) 2 2 20).particles.length →
        cutDistance id (Cloth.new (99 / 70) 2 2 20) ⟨0, 0⟩ j ≤
          cutDistance id (Cloth.new (99 / 70) 2 2 20) ⟨0, 0⟩ k) ∧
      (∀ k : Nat, k < j →
        cutDistance id (Cloth.new (99 / 70) 2 2 20) ⟨0, 0⟩ j <
          cutDistance id (Cloth.new (99 / 70) 2 2 20) ⟨0, 0⟩ k) ∧
      ∃ c2 : Cloth,
        Cloth.cut_at_mouse id (Cloth.new (99 / 70) 2 2 20) ⟨0, 0⟩ = some c2 ∧
        c2.particles = (Cloth.new (99 / 70) 2 2 20).particles ∧
        c2.constraints = (Cloth.new (99 / 70) 2 2 20).constraints.filter fun con =>
          con.particle_a != j && con.particle_b != j) ∧
      Cloth.cut_at_mouse id (Cloth.new (99 / 70) 2 2 20) ⟨1000, 1000⟩ =
        some (Cloth.new (99 / 70) 2 2 20) := by
  have hlen4 : (Cloth.new (99 / 70) 2 2 20).particles.length = 4 := by
    norm_num [Cloth.new, Particle.new, show List.range 2 = [0, 1] from rfl]
  have hne : (Cloth.new (99 / 70) 2 2 20).particles ≠ [] := by
    intro hemp
    rw [hemp] at hlen4
    norm_num at hlen4
  have hne2 := hne
  constructor
  · exact (C7_cut_at_mouse_spec id (Cloth.new (99 / 70) 2 2 20) ⟨0, 0⟩
      (by norm_num [CUT_THRESHOLD]) hne).1
      ⟨0, by rw [hlen4]; norm_num,
        by norm_num [Cloth.new, Particle.new, show List.range 2 = [0, 1] from rfl, dp]⟩
  · refine (C7_cut_at_mouse_spec id (Cloth.new (99 / 70) 2 2 20) ⟨1000, 1000⟩
      (by norm_num [CUT_THRESHOLD]) hne2).2 ?_
    intro k hk
    have hk4 : k < 4 := by
      rw [hlen4] at hk
      omega
    interval_cases k <;>
      norm_num [cutDistance, Cloth.new, Particle.new,
        show List.range 2 = [0, 1] from rfl, dp, Vec2.sub, Vec2.length, CUT_THRESHOLD]

/-- `select_particles` never touches `previous_position`. -/
theorem selectAux_prev (S : ℚ → ℚ) (p : Vec2) (r : ℚ) :
    ∀ (ps : List Particle) (i0 k : Nat),
      (((selectAux S p r i0 ps).2.2)[k]?).map (fun q => q.previous_position) =
        (ps[k]?).map fun q => q.previous_position
  | [], _, _ => rfl
  | q :: qs, i0, k => by
      by_cases hc : (q.position.sub p).length S ≤ r
      · cases k with
        | zero => simp [selectAux, hc]
        | succ n => simpa [selectAux, hc] using selectAux_prev S p r qs (i0 + 1) n
      · cases k with
        | zero => simp [selectAux, hc]
        | succ n => simpa [selectAux, hc] using selectAux_prev S p r qs (i0 + 1) n

/-- `clear_selection` never touches `previous_position`. -/
theorem clearFold_prev :
    ∀ (sel : List Nat) (ps : List Particle) (k : Nat),
      ((sel.foldl clearStep ps)[k]?).map (fun q => q.previous_position) =
        (ps[k]?).map fun q => q.previous_position
  | [], _, _ => rfl
  | i :: rest, ps, k => by
      rw [List.foldl_cons, clearFold_prev rest (clearStep ps i) k]
      unfold clearStep
      rw [List.getElem?_set]
      by_cases hik : i = k
      · subst hik
        by_cases hi : i < ps.length
        · rw [if_pos rfl, if_pos hi, List.getD_eq_getElem?_getD,
            List.getElem?_eq_getElem hi]
          simp
        · rw [if_pos rfl, if_neg hi,
            List.getElem?_eq_none_iff.mpr (Nat.le_of_not_lt hi)]
      · rw [if_neg hik]

/-- The `move_selected_particles` fold preserves the pin-synchronisation
invariant: `set_position` writes equal position and previous position. -/
theorem moveFold_pinsync (mouse : Vec2) :
    ∀ (pairs : List (Nat × Vec2)) (ps : List Particle),
      (∀ p ∈ ps, p.pinned = true → p.position = p.previous_position) →
      ∀ p ∈ pairs.foldl (moveStep mouse) ps,
        p.pinned = true → p.position = p.previous_position
  | [], _, h => h
  | pr :: prs, ps, h => by
      rw [List.foldl_cons]
      apply moveFold_pinsync mouse prs
      intro p hp hpin
      unfold moveStep at hp
      rcases List.mem_or_eq_of_mem_set hp with hmem | heq
      · exact h p hmem hpin
      · rw [heq]
        rfl

/-- The `clear_selection` fold preserves the pin-synchronisation invariant:
it only unpins. -/
theorem clearFold_pinsync :
    ∀ (sel : List Nat) (ps : List Particle),
      (∀ p ∈ ps, p.pinned = true → p.position = p.previous_position) →
      ∀ p ∈ sel.foldl clearStep ps,
        p.pinned = true → p.position = p.previous_position
  | [], _, h => h
  | i :: rest, ps, h => by
      rw [List.foldl_cons]
      apply clearFold_pinsync rest
      intro p hp hpin
      unfold clearStep at hp
      rcases List.mem_or_eq_of_mem_set hp with hmem | heq
      · exact h p hmem hpin
      · rw [heq] at hpin
        exact absurd hpin (by simp)

/-- The particle list of a successful `move_selected_particles`. -/
theorem move_selected_some_particles (c : Cloth) (p : Vec2) (c2 : Cloth)
    (h : c.move_selected_particles p = some c2) :
    c2.particles = (c.selected_particles.zip c.selection_offsets).foldl
      (moveStep p) c.particles := by
  unfold Cloth.move_selected_particles at h
  by_cases hc : c.selected_particles.length ≤ c.selection_offsets.length ∧
      ∀ i ∈ c.selected_particles, i < c.particles.length
  · rw [if_pos hc] at h
    have h2 := Option.some.inj h
    subst h2
    rfl
  · rw [if_neg hc] at h
    exact Option.noConfusion h

/-- Particles after `remove_constraint` (unchanged). -/
theorem remove_constraint_particles (c : Cloth) (i : Nat) :
    (c.remove_constraint i).particles = c.particles := by
  unfold Cloth.remove_constraint
  split <;> rfl

/-- In every state reachable without `select_particles`, every pinned particle
has its position and previous position in lockstep. -/
theorem reachable_pinsync (b : Bool) (c : Cloth) (h : ReachableFrom b c)
    (hb : b = false) :
    ∀ p ∈ c.particles, p.pinned = true → p.position = p.previous_position := by
  induction h with
  | new b sqrt2 w hh s =>
      intro p hp _
      simp only [Cloth.new, List.mem_flatMap, List.mem_map] at hp
      obtain ⟨y, _, x, _, rfl⟩ := hp
      rfl
  | simulate b S c dt hr ih =>
      intro p hp hpin
      rw [List.mem_iff_getElem?] at hp
      obtain ⟨k, hk⟩ := hp
      rw [simulate_particles_getElem] at hk
      cases hq : c.particles[k]? with
      | none =>
          rw [hq] at hk
          exact Option.noConfusion hk
      | some p0 =>
          rw [hq] at hk
          simp only [Option.map_some'] at hk
          have hp0mem : p0 ∈ c.particles := List.getElem?_mem hq
          rcases Bool.eq_false_or_eq_true p0.pinned with hpin0 | hpin0
          · rw [if_pos hpin0] at hk
            have h2 := Option.some.inj hk
            rw [← h2]
            exact ih hb p0 hp0mem hpin0
          · rw [if_neg (by rw [hpin0]; exact Bool.false_ne_true)] at hk
            have h2 := Option.some.inj hk
            rw [← h2] at hpin
            have hpp : p0.pinned = true := hpin
            rw [hpin0] at hpp
            exact absurd hpp Bool.false_ne_true
  | remove_constraint b c i hr ih =>
      rw [remove_constraint_particles]
      exact ih hb
  | remove_constraints b c f hr ih => exact ih hb
  | cut_constraints b c i hr ih => exact ih hb
  | cut_at_mouse b S c p c2 hr heq ih =>
      obtain ⟨hp, _, _⟩ := cut_at_mouse_some S c p c2 heq
      rw [hp]
      exact ih hb
  | select S c p r hr ih => exact absurd hb (by simp)
  | move b c p c2 hr heq ih =>
      rw [move_selected_some_particles c p c2 heq]
      exact moveFold_pinsync p _ _ (ih hb)
  | clear b c hr ih =>
      show ∀ p ∈ c.selected_particles.foldl clearStep c.particles, _
      exact clearFold_pinsync _ _ (ih hb)

/-- Claim C9 counterexample: a reachable state — construct a 2-by-2 mesh,
simulate one second, then select everything — contains a pinned particle whose
position differs from its previous position: `select_particles` pins a
displaced particle without syncing `previous_position`. -/
theorem C9_counterexample :
    Reachable ((Cloth.simulate id (Cloth.new (99 / 70) 2 2 5) 1).select_particles id
      ⟨0, 0⟩ 1000000000) ∧
    ((((Cloth.simulate id (Cloth.new (99 / 70) 2 2 5) 1).select_particles id
      ⟨0, 0⟩ 1000000000).particles.getD 2 dp).pinned = true ∧
      (((Cloth.simulate id (Cloth.new (99 / 70) 2 2 5) 1).select_particles id
        ⟨0, 0⟩ 1000000000).particles.getD 2 dp).position ≠
        (((Cloth.simulate id (Cloth.new (99 / 70) 2 2 5) 1).select_particles id
          ⟨0, 0⟩ 1000000000).particles.getD 2 dp).previous_position) := by
  refine ⟨ReachableFrom.select id _ ⟨0, 0⟩ 1000000000
    (ReachableFrom.simulate true id _ 1 (ReachableFrom.new true (99 / 70) 2 2 5)), ?_⟩
  norm_num [Cloth.select_particles, selectAux, Cloth.simulate, resetAccelerations,
    updateParticles, applySpringForces, applyExternalForces, applyConstraintForce,
    applyForceAt, externalStep, Particle.apply_force, Particle.damping_force,
    Particle.velocity, Particle.update, hookes_law, Vec2.normalize, Vec2.length,
    Vec2.sub, Vec2.add, Vec2.mul, Vec2.div, Vec2.zero, gravity, GRAVITY,
    SPRING_CONSTANT, DAMPING_CONSTANT, Cloth.new, cellConstraints, usub,
    show List.range 2 = [0, 1] from rfl, dp, Particle.new, resetStep, Vec2.sum]

/-- Claim C9 (amended): in every state reachable without `select_particles`,
every pinned particle keeps `position == previous_position`; and
`previous_position` is only modified inside `update` (during `simulate`) and
`set_position` (during `move_selected_particles`): `select_particles` and
`clear_selection` preserve every particle's previous position, and the
constraint-editing operations do not touch the particles at all.
`select_particles` itself breaks the pinned-particle equation, because it pins
a particle displaced mid-flight without syncing its previous position. -/
theorem C9_pinsync_amended :
    (∀ c : Cloth, ReachableFrom false c →
      ∀ p ∈ c.particles, p.pinned = true → p.position = p.previous_position) ∧
    (∀ (S : ℚ → ℚ) (c : Cloth) (p : Vec2) (r : ℚ) (k : Nat),
      ((Cloth.select_particles S c p r).particles[k]?).map
          (fun q => q.previous_position) =
        (c.particles[k]?).map fun q => q.previous_position) ∧
    (∀ (c : Cloth) (k : Nat),
      ((Cloth.clear_selection c).particles[k]?).map (fun q => q.previous_position) =
        (c.particles[k]?).map fun q => q.previous_position) ∧
    (∀ (c : Cloth) (i : Nat), (c.remove_constraint i).particles = c.particles) ∧
    (∀ (c : Cloth) (f : Constraint → Bool),
      (c.remove_constraints f).particles = c.particles) ∧
    ∀ (c : Cloth) (i : Nat), (c.cut_constraints_at_particle i).particles = c.particles :=
  ⟨fun c h => reachable_pinsync false c h rfl,
    fun S _ p r k => selectAux_prev S p r _ 0 k,
    fun c k => clearFold_prev c.selected_particles c.particles k,
    remove_constraint_particles,
    fun _ _ => rfl,
    fun _ _ => rfl⟩

/-- Witness for the amended C9: after one simulated second on a fresh 2-by-2
mesh (a select-free reachable state), the pinned corner particle still has its
position equal to its previous position. -/
theorem C9_witness :
    ((Cloth.simulate id (Cloth.new (99 / 70) 2 2 5) 1).particles.getD 0 dp).position =
      ((Cloth.simulate id (Cloth.new (99 / 70) 2 2 5) 1).particles.getD 0 dp).previous_position := by
  have hget : (Cloth.simulate id (Cloth.new (99 / 70) 2 2 5) 1).particles[0]? =
      some ((Cloth.simulate id (Cloth.new (99 / 70) 2 2 5) 1).particles.getD 0 dp) := by
    have hlen : 0 < (Cloth.simulate id (Cloth.new (99 / 70) 2 2 5) 1).particles.length := by
      rw [simulate_length]
      norm_num [Cloth.new, Particle.new, show List.range 2 = [0, 1] from rfl]
    rw [List.getD_eq_getElem?_getD, List.getElem?_eq_getElem hlen]
    rfl
  have hpin : ((Cloth.simulate id (Cloth.new (99 / 70) 2 2 5) 1).particles.getD 0 dp).pinned = true := by
    norm_num [Cloth.simulate, resetAccelerations, updateParticles, applySpringForces,
      applyExternalForces, applyConstraintForce, applyForceAt, externalStep,
      Particle.apply_force, Particle.damping_force, Particle.velocity, Particle.update,
      hookes_law, Vec2.normalize, Vec2.length, Vec2.sub, Vec2.add, Vec2.mul, Vec2.div,
      Vec2.zero, gravity, GRAVITY, SPRING_CONSTANT, DAMPING_CONSTANT, Cloth.new,
      cellConstraints, usub, show List.range 2 = [0, 1] from rfl, dp, Particle.new,
      resetStep]
  exact C9_pinsync_amended.1 _
    (ReachableFrom.simulate false id _ 1 (ReachableFrom.new false (99 / 70) 2 2 5)) _
    (List.getElem?_mem hget) hpin

/-- Claim C5 failing-input evaluation: `Cloth::new(1, 3, 5.0)` has 3 particles,
yet under the wrapping `usize` semantics of a release build the bend guard
`x < width - 2` underflows (`1 - 2` wraps to `2^64 - 1`), so the construction
emits the bend constraint `(1, 3)` of rest length 10 whose second endpoint, 3,
is not a valid particle index (a debug build panics on the same subtraction).
This contradicts the claim's bounds-checked constraint set for every
`width ≥ 1`. -/
theorem C5_width_one_bend_underflow :
    (Cloth.new (99 / 70) 1 3 5).particles.length = 3 ∧
      (⟨1, 3, 10⟩ : Constraint) ∈ (Cloth.new (99 / 70) 1 3 5).constraints := by
  constructor
  · norm_num [Cloth.new, Particle.new, show List.range 3 = [0, 1, 2] from rfl,
      show List.range 1 = [0] from rfl]
  · norm_num [Cloth.new, cellConstraints, usub, show List.range 3 = [0, 1, 2] from rfl,
      show List.range 1 = [0] from rfl]

set_option maxHeartbeats 4000000 in
/-- Claim C3 failing-input evaluation, under the IEEE-faithful non-finite
scalar `FS`: on the particle and constraint lists of the two-particle chain
`cloth12`, `simulate` with a zero `delta_time` drives the free particle at
`(0, 5)` to a non-finite (NaN) position instead of leaving it unchanged —
`Particle::velocity` divides `0.0` by the zero time step inside the damping
force, and the NaN propagates through the Verlet update
(`NaN * 0.0 = NaN`). -/
theorem C3_zero_dt_nonfinite_position :
    (particlesF12.getD 1 dpF).position = (⟨some 0, some 5⟩ : Vec2F) ∧
    ((simulateF id particlesF12 constraintsF12 (some 0)).getD 1 dpF).position =
      (⟨none, none⟩ : Vec2F) ∧
    (⟨none, none⟩ : Vec2F) ≠ (⟨some 0, some 5⟩ : Vec2F) := by
  have h1 : applyExternalForcesF (some 0) particlesF12 =
      [ParticleF.new ⟨some 0, some 0⟩ true,
        ⟨⟨some 0, some 5⟩, ⟨some 0, some 5⟩, ⟨none, none⟩, some 1, false⟩] := by
    simp only [applyExternalForcesF, ParticleF.apply_force, ParticleF.damping_force,
      ParticleF.velocity, gravityF, GRAVITY, DAMPING_CONSTANT, particlesF12,
      ParticleF.new, Vec2F.add, Vec2F.sub, Vec2F.mul, Vec2F.div, Vec2F.zero,
      FS.add, FS.sub, FS.mul, FS.div, List.map_cons, List.map_nil]
    norm_num
  have h2 : applyConstraintForceF id
      [ParticleF.new ⟨some 0, some 0⟩ true,
        ⟨⟨some 0, some 5⟩, ⟨some 0, some 5⟩, ⟨none, none⟩, some 1, false⟩]
      ⟨0, 1, some 5⟩ =
      [ParticleF.new ⟨some 0, some 0⟩ true,
        ⟨⟨some 0, some 5⟩, ⟨some 0, some 5⟩, ⟨none, none⟩, some 1, false⟩] := by
    simp only [applyConstraintForceF, hookes_lawF, Vec2F.normalize, Vec2F.length,
      FS.sqrt, FS.eqZero, FS.recip, Vec2F.sub, Vec2F.add, Vec2F.mul, Vec2F.div,
      Vec2F.zero, FS.add, FS.sub, FS.mul, FS.div, ParticleF.apply_force,
      ParticleF.new, SPRING_CONSTANT, dpF]
    norm_num
  refine ⟨rfl, ?_, by simp⟩
  show ((((constraintsF12.foldl (applyConstraintForceF id)
      (applyExternalForcesF (some 0) particlesF12)).map
      (ParticleF.update (some 0))).map fun p =>
      { p with acceleration := Vec2F.zero }).getD 1 dpF).position =
      (⟨none, none⟩ : Vec2F)
  have hfold : constraintsF12.foldl (applyConstraintForceF id)
      (applyExternalForcesF (some 0) particlesF12) =
      applyConstraintForceF id (applyExternalForcesF (some 0) particlesF12)
        ⟨0, 1, some 5⟩ := rfl
  rw [hfold, h1, h2]
  simp only [List.map_cons, List.map_nil, ParticleF.update, ParticleF.new,
    Vec2F.add, Vec2F.sub, Vec2F.mul, Vec2F.zero, FS.add, FS.sub, FS.mul]
  norm_num [dpF, ParticleF.new]

end MiniPhys
